import Mathlib

/-!
Verification of the in-memory routing fabric of the go-realtime-workspace
repository: the organization registry (`hub/org_hub.go`), the group registry
(`GroupHub`), the per-connection read loop stamping (`Client.readPump`,
`WebSocketHandler.readPumpDM`, `WebSocketHandler.SendDM`) and the DM room
identifier (`WebSocketHandler.getDMRoomID`).

Go maps are embedded as association lists with insert-or-replace update,
Go channels as bounded queues (`ChanSt`) held in a heap keyed by a numeric
channel identity, and `close(ch)` as an increment of a close counter so that
"closed exactly once" is expressible.  `time.Time` is embedded as a `Nat`
tick; `time.Now()` at an ingress point becomes an explicit `now` argument.
-/

namespace GoRealtime

/-- The routing envelope (`hub.Message` in the source): org ID, group ID,
sender client ID, recipient ID, content, timestamp. -/
structure Message where
  orgID : String
  groupID : String
  clientID : String
  recipientID : String
  content : String
  timestamp : Nat
deriving DecidableEq, Repr

/-- State of one buffered Go channel of `*Message` (a client's `Send` queue):
the buffered messages, the capacity, and how many times `close` has been
called on it. -/
structure ChanSt where
  buf : List Message
  cap : Nat
  closeCount : Nat
deriving DecidableEq, Repr

/-- A connection (`hub.Client`): its client ID and the identity of its `Send`
channel in the channel heap. -/
structure Client where
  id : String
  chan : Nat
deriving DecidableEq, Repr

section AssocMap

variable {K V : Type} [DecidableEq K]

/-- Go map lookup `m[k]` on an association-list embedding. -/
def mapLookup : List (K × V) → K → Option V
  | [], _ => none
  | (k', v) :: rest, k => if k = k' then some v else mapLookup rest k

/-- Go map assignment `m[k] = v`: replace the entry for `k` if present,
otherwise append it. -/
def mapUpd : List (K × V) → K → V → List (K × V)
  | [], k, v => [(k, v)]
  | (k', v') :: rest, k, v =>
      if k = k' then (k, v) :: rest else (k', v') :: mapUpd rest k v

/-- Go `delete(m, k)`: remove the entry for `k` (the first one; keys are
unique in every state reachable through `mapUpd`). -/
def mapErase : List (K × V) → K → List (K × V)
  | [], _ => []
  | (k', v') :: rest, k => if k = k' then rest else (k', v') :: mapErase rest k

/-- The key list of an association-list map. -/
def mapKeys (m : List (K × V)) : List K := m.map Prod.fst

@[simp]
theorem mapLookup_upd_self (m : List (K × V)) (k : K) (v : V) :
    mapLookup (mapUpd m k v) k = some v := by
  induction m with
  | nil => simp [mapUpd, mapLookup]
  | cons p rest ih =>
      obtain ⟨k', v'⟩ := p
      by_cases h : k = k' <;> simp [mapUpd, mapLookup, h, ih]

theorem mapLookup_upd_ne (m : List (K × V)) (k k' : K) (v : V) (h : k' ≠ k) :
    mapLookup (mapUpd m k v) k' = mapLookup m k' := by
  induction m with
  | nil => simp [mapUpd, mapLookup, h]
  | cons p rest ih =>
      obtain ⟨k₀, v₀⟩ := p
      by_cases hk : k = k₀
      · subst hk; simp [mapUpd, mapLookup, h]
      · by_cases hk' : k' = k₀ <;> simp [mapUpd, mapLookup, hk, hk', ih]

theorem mapLookup_erase_ne (m : List (K × V)) (k k' : K) (h : k' ≠ k) :
    mapLookup (mapErase m k) k' = mapLookup m k' := by
  induction m with
  | nil => simp [mapErase]
  | cons p rest ih =>
      obtain ⟨k₀, v₀⟩ := p
      by_cases hk : k = k₀
      · subst hk; simp [mapErase, mapLookup, h]
      · by_cases hk' : k' = k₀ <;> simp [mapErase, mapLookup, hk, hk', ih]

theorem mapLookup_eq_none_iff (m : List (K × V)) (k : K) :
    mapLookup m k = none ↔ k ∉ mapKeys m := by
  induction m with
  | nil => simp [mapLookup, mapKeys]
  | cons p rest ih =>
      obtain ⟨k₀, v₀⟩ := p
      by_cases hk : k = k₀
      · simp [mapLookup, mapKeys, hk]
      · simp [mapLookup, mapKeys, hk, ih]

theorem mapLookup_erase_self (m : List (K × V)) (k : K)
    (h : (mapKeys m).Nodup) : mapLookup (mapErase m k) k = none := by
  induction m with
  | nil => simp [mapErase, mapLookup]
  | cons p rest ih =>
      obtain ⟨k₀, v₀⟩ := p
      simp only [mapKeys, List.map_cons, List.nodup_cons] at h
      by_cases hk : k = k₀
      · subst hk
        simp only [mapErase, if_pos rfl]
        exact (mapLookup_eq_none_iff rest k).mpr h.1
      · simp [mapErase, mapLookup, hk, ih h.2]

theorem mem_mapKeys_upd (m : List (K × V)) (k k' : K) (v : V) :
    k' ∈ mapKeys (mapUpd m k v) ↔ k' ∈ mapKeys m ∨ k' = k := by
  induction m with
  | nil => simp [mapUpd, mapKeys]
  | cons p rest ih =>
      obtain ⟨k₀, v₀⟩ := p
      by_cases hk : k = k₀
      · subst hk; simp [mapUpd, mapKeys]; tauto
      · simp [mapUpd, mapKeys, hk, ih] at *; tauto

theorem nodup_mapKeys_upd (m : List (K × V)) (k : K) (v : V)
    (h : (mapKeys m).Nodup) : (mapKeys (mapUpd m k v)).Nodup := by
  induction m with
  | nil => simp [mapUpd, mapKeys]
  | cons p rest ih =>
      obtain ⟨k₀, v₀⟩ := p
      simp only [mapKeys, List.map_cons, List.nodup_cons] at h
      by_cases hk : k = k₀
      · subst hk
        have heq : mapUpd ((k, v₀) :: rest) k v = (k, v) :: rest := by simp [mapUpd]
        rw [heq]
        simp only [mapKeys, List.map_cons, List.nodup_cons]
        exact ⟨h.1, h.2⟩
      · simp only [mapUpd, if_neg hk, mapKeys, List.map_cons, List.nodup_cons]
        refine ⟨fun hmem => ?_, ih h.2⟩
        rcases (mem_mapKeys_upd rest k k₀ v).mp hmem with h' | h'
        · exact h.1 h'
        · exact hk h'.symm

theorem mapKeys_erase_subset (m : List (K × V)) (k : K) :
    mapKeys (mapErase m k) ⊆ mapKeys m := by
  induction m with
  | nil => simp [mapErase]
  | cons p rest ih =>
      obtain ⟨k₀, v₀⟩ := p
      by_cases hk : k = k₀
      · subst hk
        simp only [mapErase, if_pos rfl, mapKeys, List.map_cons]
        exact fun x hx => List.mem_cons_of_mem _ hx
      · simp only [mapErase, if_neg hk, mapKeys, List.map_cons]
        intro x hx
        rcases List.mem_cons.mp hx with h | h
        · exact List.mem_cons.mpr (Or.inl h)
        · exact List.mem_cons.mpr (Or.inr (ih h))

theorem nodup_mapKeys_erase (m : List (K × V)) (k : K)
    (h : (mapKeys m).Nodup) : (mapKeys (mapErase m k)).Nodup := by
  induction m with
  | nil => simp [mapErase, mapKeys]
  | cons p rest ih =>
      obtain ⟨k₀, v₀⟩ := p
      simp only [mapKeys, List.map_cons, List.nodup_cons] at h
      by_cases hk : k = k₀
      · subst hk; simpa [mapErase, mapKeys] using h.2
      · simp only [mapErase, if_neg hk, mapKeys, List.map_cons, List.nodup_cons]
        exact ⟨fun hmem => h.1 (mapKeys_erase_subset rest k hmem), ih h.2⟩

end AssocMap

/-- The channel heap: channel identity to channel state. -/
abbrev Heap := List (Nat × ChanSt)

/-- Go `close(ch)` on a channel in the heap: bump its close counter. -/
def closeChan (h : Heap) (ch : Nat) : Heap :=
  match mapLookup h ch with
  | some cs => mapUpd h ch { cs with closeCount := cs.closeCount + 1 }
  | none => h

/-- The non-blocking send `select { case ch <- m: ... default: ... }`:
succeeds (returns `true` and the updated heap) exactly when the channel's
buffer has room, otherwise leaves the heap unchanged and returns `false`. -/
def trySendChan (h : Heap) (ch : Nat) (m : Message) : Bool × Heap :=
  match mapLookup h ch with
  | some cs =>
      if cs.buf.length < cs.cap then
        (true, mapUpd h ch { cs with buf := cs.buf ++ [m] })
      else (false, h)
  | none => (false, h)

/-! ## Group registry (`GroupHub.Run` in `src/unnamed/part_003`) -/

/-- State of one group registry: the `Clients` map (client ID to client), the
channel heap holding every `Send` queue, and the log of "send channel is
full" warnings (by client ID). -/
structure GState where
  clients : List (String × Client)
  chans : Heap
  warnings : List String
deriving DecidableEq, Repr

/-- The `Register` case of `GroupHub.Run`: `g.Clients[client.ID] = client`. -/
def registerStep (s : GState) (c : Client) : GState :=
  { s with clients := mapUpd s.clients c.id c }

/-- The `Unregister` case of `GroupHub.Run`: if an entry for `client.ID`
exists, delete it and `close(client.Send)`; otherwise do nothing. -/
def unregisterStep (s : GState) (c : Client) : GState :=
  if (mapLookup s.clients c.id).isSome then
    { s with clients := mapErase s.clients c.id, chans := closeChan s.chans c.chan }
  else s

/-- One iteration of the fan-out loop in the `Broadcast` case of
`GroupHub.Run`: non-blocking send to one member's `Send` channel, recording
a warning with that client's ID when the channel is full. -/
def fanoutOne (m : Message) (acc : Heap × List String) (p : String × Client) :
    Heap × List String :=
  match trySendChan acc.1 p.2.chan m with
  | (true, h) => (h, acc.2)
  | (false, h) => (h, acc.2 ++ [p.2.id])

/-- The `Broadcast` case of `GroupHub.Run`: iterate over every member and
attempt a non-blocking enqueue; full queues are skipped with a warning. -/
def broadcastStep (s : GState) (m : Message) : GState :=
  let r := s.clients.foldl (fanoutOne m) (s.chans, s.warnings)
  { s with chans := r.1, warnings := r.2 }

/-- A control operation submitted to the group registry's dispatch loop. -/
inductive CtrlOp where
  | register (c : Client)
  | unregister (c : Client)
deriving DecidableEq, Repr

/-- Dispatch of one control operation by `GroupHub.Run`. -/
def ctrlStep (s : GState) : CtrlOp → GState
  | .register c => registerStep s c
  | .unregister c => unregisterStep s c

/-- The dispatch loop processing a finite sequence of control operations in
submission order. -/
def runCtrl (s : GState) (ops : List CtrlOp) : GState := ops.foldl ctrlStep s

/-- The spec-side membership fold (from the spec's words, for the refinement
claim): register adds the client ID to the set, unregister removes it. -/
def specMembership (A : Finset String) : CtrlOp → Finset String
  | .register c => insert c.id A
  | .unregister c => A.erase c.id

/-! ## Organization registry DM table (`OrgHub.Run`, `GetDirectClient`,
`SendDirectMessage` in `src/hub/org_hub.go`) -/

/-- State of the DM side of the organization registry: the
`DirectConnections` map (user ID to client), the channel heap, and the
"send channel is full" warning log (by recipient ID). -/
structure DMState where
  direct : List (String × Client)
  chans : Heap
  warnings : List String
deriving DecidableEq, Repr

/-- The `RegisterDM` case of `OrgHub.Run`:
`o.DirectConnections[client.ID] = client` (last-registered wins; no close of
a previously mapped connection). -/
def dmRegisterStep (s : DMState) (c : Client) : DMState :=
  { s with direct := mapUpd s.direct c.id c }

/-- The `UnregisterDM` case of `OrgHub.Run`: if an entry for `client.ID`
exists, delete it and `close(client.Send)` — the channel of the argument
connection, whatever connection the map held; otherwise do nothing. -/
def dmUnregisterStep (s : DMState) (c : Client) : DMState :=
  if (mapLookup s.direct c.id).isSome then
    { s with direct := mapErase s.direct c.id, chans := closeChan s.chans c.chan }
  else s

/-- `OrgHub.GetDirectClient`: lookup in `DirectConnections`. -/
def getDirectClient (s : DMState) (userID : String) : Option Client :=
  mapLookup s.direct userID

/-- `OrgHub.SendDirectMessage`: if the recipient is mapped, attempt a
non-blocking send to its `Send` channel, returning `true` on success and
`false` (with a warning) when the channel is full; returns `false` when the
recipient is not mapped. -/
def sendDirectMessage (s : DMState) (recipientID : String) (m : Message) :
    Bool × DMState :=
  match mapLookup s.direct recipientID with
  | some c =>
      match trySendChan s.chans c.chan m with
      | (true, h) => (true, { s with chans := h })
      | (false, _) => (false, { s with warnings := s.warnings ++ [recipientID] })
  | none => (false, s)

/-! ## Organization structure (`OrgHub.Run` register/unregister of groups,
`GetOrganization`, `CreateOrganization` in `src/hub/org_hub.go`) -/

/-- The identity of a `GroupHub` as seen by the organization registry. -/
structure GroupRef where
  orgID : String
  groupID : String
deriving DecidableEq, Repr

/-- An `Org`: ID, display name, and the `Groups` map. -/
structure Org where
  id : String
  name : String
  groups : List (String × GroupRef)
deriving DecidableEq, Repr

/-- State of the organization side of the registry: the `Organizations`
map. -/
structure OrgHubState where
  orgs : List (String × Org)
deriving DecidableEq, Repr

/-- The `Register` case of `OrgHub.Run`: create the organization if absent
(with `Name` set to the org ID) and insert the group under its group ID. -/
def registerGroupStep (s : OrgHubState) (g : GroupRef) : OrgHubState :=
  match mapLookup s.orgs g.orgID with
  | some org =>
      { orgs := mapUpd s.orgs g.orgID { org with groups := mapUpd org.groups g.groupID g } }
  | none =>
      { orgs := mapUpd s.orgs g.orgID
          { id := g.orgID, name := g.orgID, groups := mapUpd [] g.groupID g } }

/-- The `Unregister` case of `OrgHub.Run`: if the organization exists, delete
the group from its `Groups` map; if that map becomes empty, delete the
organization itself. -/
def unregisterGroupStep (s : OrgHubState) (g : GroupRef) : OrgHubState :=
  match mapLookup s.orgs g.orgID with
  | some org =>
      let groups := mapErase org.groups g.groupID
      if groups.isEmpty then { orgs := mapErase s.orgs g.orgID }
      else { orgs := mapUpd s.orgs g.orgID { org with groups := groups } }
  | none => s

/-- `OrgHub.GetOrganization`: lookup in `Organizations`. -/
def getOrganization (s : OrgHubState) (orgID : String) : Option Org :=
  mapLookup s.orgs orgID

/-- `OrgHub.CreateOrganization`: return the existing organization unchanged
if present, otherwise insert a fresh one with the given ID and name and
return it. -/
def createOrganization (s : OrgHubState) (orgID name : String) :
    Org × OrgHubState :=
  match mapLookup s.orgs orgID with
  | some org => (org, s)
  | none =>
      let org : Org := { id := orgID, name := name, groups := [] }
      (org, { orgs := mapUpd s.orgs orgID org })

/-! ## Ingress stamping (`Client.readPump` in `src/unnamed/part_002`,
`WebSocketHandler.readPumpDM` and `WebSocketHandler.SendDM` in
`src/handlers/websocket_handler.go`) -/

/-- The join context a group connection carries (`c.Group.OrgID`,
`c.Group.GroupID`). -/
structure GroupCtx where
  orgID : String
  groupID : String
deriving DecidableEq, Repr

/-- The stamping performed by `Client.readPump` on each decoded inbound
frame before handing it to `c.Group.Broadcast`:
`msg.ClientID = c.ID; msg.GroupID = c.Group.GroupID; msg.OrgID = c.Group.OrgID`.
No other field of the frame — in particular not `Timestamp` — is touched. -/
def stampGroupFrame (c : Client) (g : GroupCtx) (m : Message) : Message :=
  { m with clientID := c.id, groupID := g.groupID, orgID := g.orgID }

/-- The stamping performed by `WebSocketHandler.readPumpDM` on each decoded
inbound frame: `message.ClientID = client.ID; message.Timestamp = time.Now()`
(`now` is the ingress time). -/
def stampDMFrame (c : Client) (now : Nat) (m : Message) : Message :=
  { m with clientID := c.id, timestamp := now }

/-- The stamping performed by `WebSocketHandler.SendDM` on the decoded
request body: `message.ClientID = senderID; message.RecipientID = recipientID;
message.Timestamp = time.Now()` (`now` is the ingress time). -/
def stampSendDM (senderID recipientID : String) (now : Nat) (m : Message) :
    Message :=
  { m with clientID := senderID, recipientID := recipientID, timestamp := now }

/-- `WebSocketHandler.getDMRoomID`: concatenate the two user IDs with an
underscore, smaller one first (Go string `<`, lexicographic). -/
def getDMRoomID (user1 user2 : String) : String :=
  if user1 < user2 then user1 ++ "_" ++ user2 else user2 ++ "_" ++ user1

/-! ## Fan-out lemmas -/

theorem trySendChan_lookup_ne (h : Heap) (ch ch' : Nat) (m : Message)
    (hne : ch' ≠ ch) :
    mapLookup (trySendChan h ch m).2 ch' = mapLookup h ch' := by
  cases hl : mapLookup h ch with
  | none => simp [trySendChan, hl]
  | some cs =>
      by_cases hfull : cs.buf.length < cs.cap
      · simp [trySendChan, hl, hfull, mapLookup_upd_ne _ _ _ _ hne]
      · simp [trySendChan, hl, hfull]

theorem fanoutOne_fst (m : Message) (acc : Heap × List String)
    (p : String × Client) :
    (fanoutOne m acc p).1 = (trySendChan acc.1 p.2.chan m).2 := by
  unfold fanoutOne
  rcases trySendChan acc.1 p.2.chan m with ⟨b, h⟩
  cases b <;> rfl

theorem mem_fanoutOne_warnings (m : Message) (acc : Heap × List String)
    (p : String × Client) (x : String) (hx : x ∈ acc.2) :
    x ∈ (fanoutOne m acc p).2 := by
  unfold fanoutOne
  rcases trySendChan acc.1 p.2.chan m with ⟨b, h⟩
  cases b
  · exact List.mem_append_left _ hx
  · exact hx

theorem mem_fanout_warnings (m : Message) (L : List (String × Client)) :
    ∀ (acc : Heap × List String) (x : String), x ∈ acc.2 →
      x ∈ (L.foldl (fanoutOne m) acc).2 := by
  induction L with
  | nil => intro acc x hx; exact hx
  | cons q L ih =>
      intro acc x hx
      exact ih (fanoutOne m acc q) x (mem_fanoutOne_warnings m acc q x hx)

theorem fanout_lookup_ne (m : Message) (L : List (String × Client)) :
    ∀ (acc : Heap × List String) (ch : Nat),
      (∀ p ∈ L, p.2.chan ≠ ch) →
      mapLookup (L.foldl (fanoutOne m) acc).1 ch = mapLookup acc.1 ch := by
  induction L with
  | nil => intro acc ch _; rfl
  | cons q L ih =>
      intro acc ch hne
      have hq : q.2.chan ≠ ch := hne q (List.mem_cons_self _ _)
      rw [List.foldl_cons, ih (fanoutOne m acc q) ch
        (fun p hp => hne p (List.mem_cons_of_mem _ hp))]
      rw [fanoutOne_fst]
      exact trySendChan_lookup_ne acc.1 q.2.chan ch m (fun h => hq h.symm)

theorem fanout_member (m : Message) (L : List (String × Client)) :
    ∀ (acc : Heap × List String),
      (L.map (fun p => p.2.chan)).Nodup →
      ∀ p ∈ L, ∀ cs, mapLookup acc.1 p.2.chan = some cs →
        (if cs.buf.length < cs.cap then
           mapLookup (L.foldl (fanoutOne m) acc).1 p.2.chan =
             some { cs with buf := cs.buf ++ [m] }
         else
           mapLookup (L.foldl (fanoutOne m) acc).1 p.2.chan = some cs ∧
             p.2.id ∈ (L.foldl (fanoutOne m) acc).2) := by
  induction L with
  | nil => intro acc _ p hp; exact absurd hp (List.not_mem_nil p)
  | cons q L ih =>
      intro acc hnodup p hp cs hcs
      simp only [List.map_cons, List.nodup_cons] at hnodup
      rcases List.mem_cons.mp hp with rfl | hpL
      · -- p is the head: its channel is untouched by the tail fold
        have htail : ∀ r ∈ L, r.2.chan ≠ p.2.chan := by
          intro r hr heq
          exact hnodup.1 (heq ▸ List.mem_map_of_mem (fun x => x.2.chan) hr)
        rw [List.foldl_cons]
        by_cases hfull : cs.buf.length < cs.cap
        · rw [if_pos hfull]
          rw [fanout_lookup_ne m L (fanoutOne m acc p) p.2.chan htail]
          rw [fanoutOne_fst]
          simp [trySendChan, hcs, hfull]
        · rw [if_neg hfull]
          constructor
          · rw [fanout_lookup_ne m L (fanoutOne m acc p) p.2.chan htail]
            rw [fanoutOne_fst]
            simp [trySendChan, hcs, hfull]
          · refine mem_fanout_warnings m L (fanoutOne m acc p) p.2.id ?_
            unfold fanoutOne
            simp [trySendChan, hcs, hfull]
      · -- p is in the tail: the head step does not touch p's channel
        have hne : p.2.chan ≠ q.2.chan := by
          intro heq
          exact hnodup.1 (heq ▸ List.mem_map_of_mem (fun x => x.2.chan) hpL)
        have hcs' : mapLookup (fanoutOne m acc q).1 p.2.chan = some cs := by
          rw [fanoutOne_fst]
          rw [trySendChan_lookup_ne acc.1 q.2.chan p.2.chan m hne]
          exact hcs
        rw [List.foldl_cons]
        exact ih (fanoutOne m acc q) hnodup.2 p hpL cs hcs'

/-! ## Claim theorems -/

/-- C2: for every group membership state and every broadcast envelope, the
broadcast case of `GroupHub.Run` attempts a non-blocking enqueue onto each
member's `Send` queue.  If exactly one member's queue is full, the envelope
is enqueued to every other member, the full recipient is the only one that
misses it and a warning naming it is recorded, and the broadcast itself is a
total function of the state (it neither blocks nor errors) leaving the
membership unchanged. -/
theorem broadcast_one_full_delivers_to_rest
    (s : GState) (m : Message) (f : String × Client) (fcs : ChanSt)
    (hnodup : (s.clients.map (fun p => p.2.chan)).Nodup)
    (hmem : f ∈ s.clients)
    (hfcs : mapLookup s.chans f.2.chan = some fcs)
    (hfull : ¬ fcs.buf.length < fcs.cap) :
    (∀ p ∈ s.clients, p.2.chan ≠ f.2.chan →
       ∀ cs, mapLookup s.chans p.2.chan = some cs → cs.buf.length < cs.cap →
         mapLookup (broadcastStep s m).chans p.2.chan =
           some { cs with buf := cs.buf ++ [m] }) ∧
    mapLookup (broadcastStep s m).chans f.2.chan = some fcs ∧
    f.2.id ∈ (broadcastStep s m).warnings ∧
    (broadcastStep s m).clients = s.clients := by
  refine ⟨?_, ?_, ?_, rfl⟩
  · intro p hp _ cs hcs hroom
    have := fanout_member m s.clients (s.chans, s.warnings) hnodup p hp cs hcs
    rw [if_pos hroom] at this
    exact this
  · have := fanout_member m s.clients (s.chans, s.warnings) hnodup f hmem fcs hfcs
    rw [if_neg hfull] at this
    exact this.1
  · have := fanout_member m s.clients (s.chans, s.warnings) hnodup f hmem fcs hfcs
    rw [if_neg hfull] at this
    exact this.2

/-- A concrete broadcast envelope used in the C2 witness. -/
def wMsg : Message := ⟨"acme", "eng", "alice", "", "hi", 7⟩

/-- A concrete group state with three members; bob's queue (channel 2) has
capacity 0 and is therefore full. -/
def wGS : GState :=
  { clients := [("alice", ⟨"alice", 1⟩), ("bob", ⟨"bob", 2⟩), ("carol", ⟨"carol", 3⟩)]
    chans := [(1, ⟨[], 2, 0⟩), (2, ⟨[], 0, 0⟩), (3, ⟨[], 4, 0⟩)]
    warnings := [] }

/-- Witness for C2: broadcasting to a three-member group where only bob's
queue is full delivers to alice, leaves bob's queue untouched, and records a
warning for bob. -/
theorem broadcast_one_full_witness :
    mapLookup (broadcastStep wGS wMsg).chans 1 =
      some { buf := [wMsg], cap := 2, closeCount := 0 } ∧
    mapLookup (broadcastStep wGS wMsg).chans 2 =
      some { buf := [], cap := 0, closeCount := 0 } ∧
    "bob" ∈ (broadcastStep wGS wMsg).warnings := by
  have h := broadcast_one_full_delivers_to_rest wGS wMsg ("bob", ⟨"bob", 2⟩)
    ⟨[], 0, 0⟩ (by decide) (by decide) rfl (by decide)
  exact ⟨h.1 ("alice", ⟨"alice", 1⟩) (by decide) (by decide) ⟨[], 2, 0⟩ rfl
    (by decide), h.2.1, h.2.2.1⟩

/-! ## Membership refinement (C3) -/

theorem mapKeys_toFinset_upd {K V : Type} [DecidableEq K]
    (m : List (K × V)) (k : K) (v : V) :
    (mapKeys (mapUpd m k v)).toFinset = insert k (mapKeys m).toFinset := by
  induction m with
  | nil => simp [mapUpd, mapKeys]
  | cons p rest ih =>
      obtain ⟨k₀, v₀⟩ := p
      by_cases hk : k = k₀
      · subst hk; simp [mapUpd, mapKeys]
      · simp only [mapUpd, if_neg hk, mapKeys, List.map_cons, List.toFinset_cons]
        rw [show mapKeys (mapUpd rest k v) = (mapUpd rest k v).map Prod.fst from rfl] at *
        rw [show mapKeys rest = rest.map Prod.fst from rfl] at ih
        rw [ih, Finset.Insert.comm]

theorem mapKeys_toFinset_erase {K V : Type} [DecidableEq K]
    (m : List (K × V)) (k : K) (h : (mapKeys m).Nodup) :
    (mapKeys (mapErase m k)).toFinset = (mapKeys m).toFinset.erase k := by
  induction m with
  | nil => simp [mapErase, mapKeys]
  | cons p rest ih =>
      obtain ⟨k₀, v₀⟩ := p
      simp only [mapKeys, List.map_cons, List.nodup_cons] at h
      by_cases hk : k = k₀
      · subst hk
        have heq : mapErase ((k, v₀) :: rest) k = rest := by simp [mapErase]
        rw [heq]
        simp only [mapKeys, List.map_cons, List.toFinset_cons]
        rw [Finset.erase_insert (by simpa using h.1)]
      · simp only [mapErase, if_neg hk, mapKeys, List.map_cons, List.toFinset_cons]
        rw [show mapKeys (mapErase rest k) = (mapErase rest k).map Prod.fst from rfl] at *
        rw [show mapKeys rest = rest.map Prod.fst from rfl] at ih
        rw [ih h.2, Finset.erase_insert_of_ne (fun hkk => hk hkk.symm)]

theorem runCtrl_invariant (ops : List CtrlOp) :
    ∀ (s : GState) (A : Finset String),
      (mapKeys s.clients).Nodup → (mapKeys s.clients).toFinset = A →
      (mapKeys (runCtrl s ops).clients).Nodup ∧
      (mapKeys (runCtrl s ops).clients).toFinset = ops.foldl specMembership A := by
  induction ops with
  | nil => intro s A h1 h2; exact ⟨h1, h2⟩
  | cons op ops ih =>
      intro s A h1 h2
      have hstep :
          (mapKeys (ctrlStep s op).clients).Nodup ∧
          (mapKeys (ctrlStep s op).clients).toFinset = specMembership A op := by
        cases op with
        | register c =>
            refine ⟨nodup_mapKeys_upd _ _ _ h1, ?_⟩
            simp only [ctrlStep, registerStep, specMembership]
            rw [mapKeys_toFinset_upd, h2]
        | unregister c =>
            simp only [ctrlStep, unregisterStep, specMembership]
            by_cases hpres : (mapLookup s.clients c.id).isSome
            · rw [if_pos hpres]
              refine ⟨nodup_mapKeys_erase _ _ h1, ?_⟩
              rw [mapKeys_toFinset_erase _ _ h1, h2]
            · rw [if_neg hpres]
              refine ⟨h1, ?_⟩
              have habs : c.id ∉ mapKeys s.clients :=
                (mapLookup_eq_none_iff s.clients c.id).mp
                  (Option.not_isSome_iff_eq_none.mp hpres)
              have hA : c.id ∉ A := by rw [← h2]; simpa using habs
              rw [Finset.erase_eq_of_not_mem hA]
              exact h2
      exact ih (ctrlStep s op) (specMembership A op) hstep.1 hstep.2

/-- C3: for any finite sequence of register/unregister control operations
processed by one group registry's dispatch loop starting from an empty
membership map, the final set of member client IDs equals the fold of the
same sequence, in submission order, over the empty set (register inserts the
ID, unregister erases it; unregistering an absent ID has no effect). -/
theorem groupMembership_refines_fold
    (ops : List CtrlOp) (s0 : GState) (h0 : s0.clients = []) :
    (mapKeys (runCtrl s0 ops).clients).toFinset = ops.foldl specMembership ∅ :=
  (runCtrl_invariant ops s0 ∅ (by rw [h0]; simp [mapKeys])
    (by rw [h0]; simp [mapKeys])).2

/-- Witness for C3 on a concrete operation sequence: register alice, register
bob, unregister alice, unregister alice again (absent: no effect), register
carol. -/
theorem groupMembership_refines_fold_witness :
    (mapKeys (runCtrl { clients := [], chans := [(1, ⟨[], 2, 0⟩)], warnings := [] }
        [CtrlOp.register ⟨"alice", 1⟩, CtrlOp.register ⟨"bob", 2⟩,
         CtrlOp.unregister ⟨"alice", 1⟩, CtrlOp.unregister ⟨"alice", 1⟩,
         CtrlOp.register ⟨"carol", 3⟩]).clients).toFinset =
      [CtrlOp.register ⟨"alice", 1⟩, CtrlOp.register ⟨"bob", 2⟩,
         CtrlOp.unregister ⟨"alice", 1⟩, CtrlOp.unregister ⟨"alice", 1⟩,
         CtrlOp.register ⟨"carol", 3⟩].foldl specMembership ∅ :=
  groupMembership_refines_fold _ _ rfl

/-! ## Unregister idempotence (C6) -/

theorem unregisterStep_absent (s : GState) (c : Client)
    (h : mapLookup s.clients c.id = none) : unregisterStep s c = s := by
  simp [unregisterStep, h]

theorem dmUnregisterStep_absent (s : DMState) (c : Client)
    (h : mapLookup s.direct c.id = none) : dmUnregisterStep s c = s := by
  simp [dmUnregisterStep, h]

/-- C6: unregistering a connection — in the group registry and in the DM
table alike — removes it from the membership map and closes its outbound
queue exactly once (the close counter rises by one); processing a second
unregister for the same, now-absent connection leaves the state completely
unchanged: no error, and no second close. -/
theorem unregister_idempotent_closes_once
    (gs : GState) (c : Client) (ccs : ChanSt)
    (hng : (mapKeys gs.clients).Nodup)
    (hmem : (mapLookup gs.clients c.id).isSome)
    (hcs : mapLookup gs.chans c.chan = some ccs)
    (ds : DMState) (d : Client) (dcs : ChanSt)
    (hnd : (mapKeys ds.direct).Nodup)
    (hdm : (mapLookup ds.direct d.id).isSome)
    (hdcs : mapLookup ds.chans d.chan = some dcs) :
    (mapLookup (unregisterStep gs c).clients c.id = none ∧
     mapLookup (unregisterStep gs c).chans c.chan =
       some { ccs with closeCount := ccs.closeCount + 1 } ∧
     unregisterStep (unregisterStep gs c) c = unregisterStep gs c) ∧
    (mapLookup (dmUnregisterStep ds d).direct d.id = none ∧
     mapLookup (dmUnregisterStep ds d).chans d.chan =
       some { dcs with closeCount := dcs.closeCount + 1 } ∧
     dmUnregisterStep (dmUnregisterStep ds d) d = dmUnregisterStep ds d) := by
  constructor
  · have h1 : unregisterStep gs c =
        { gs with clients := mapErase gs.clients c.id,
                  chans := closeChan gs.chans c.chan } := by
      simp [unregisterStep, hmem]
    have hcl : mapLookup (unregisterStep gs c).clients c.id = none := by
      rw [h1]; exact mapLookup_erase_self _ _ hng
    refine ⟨hcl, ?_, ?_⟩
    · rw [h1]
      show mapLookup (closeChan gs.chans c.chan) c.chan = _
      simp [closeChan, hcs]
    · exact unregisterStep_absent _ _ hcl
  · have h1 : dmUnregisterStep ds d =
        { ds with direct := mapErase ds.direct d.id,
                  chans := closeChan ds.chans d.chan } := by
      simp [dmUnregisterStep, hdm]
    have hcl : mapLookup (dmUnregisterStep ds d).direct d.id = none := by
      rw [h1]; exact mapLookup_erase_self _ _ hnd
    refine ⟨hcl, ?_, ?_⟩
    · rw [h1]
      show mapLookup (closeChan ds.chans d.chan) d.chan = _
      simp [closeChan, hdcs]
    · exact dmUnregisterStep_absent _ _ hcl

/-- Concrete one-member group state for the C6 witness. -/
def wGS6 : GState :=
  { clients := [("alice", ⟨"alice", 1⟩)], chans := [(1, ⟨[], 2, 0⟩)], warnings := [] }

/-- Concrete one-user DM state for the C6 witness. -/
def wDS6 : DMState :=
  { direct := [("u", ⟨"u", 5⟩)], chans := [(5, ⟨[], 2, 0⟩)], warnings := [] }

/-- Witness for C6 on concrete states: the close counter becomes exactly 1
and the second unregister changes nothing, for the group and the DM case. -/
theorem unregister_idempotent_witness :
    mapLookup (unregisterStep wGS6 ⟨"alice", 1⟩).chans 1 = some ⟨[], 2, 1⟩ ∧
    unregisterStep (unregisterStep wGS6 ⟨"alice", 1⟩) ⟨"alice", 1⟩ =
      unregisterStep wGS6 ⟨"alice", 1⟩ ∧
    mapLookup (dmUnregisterStep wDS6 ⟨"u", 5⟩).chans 5 = some ⟨[], 2, 1⟩ ∧
    dmUnregisterStep (dmUnregisterStep wDS6 ⟨"u", 5⟩) ⟨"u", 5⟩ =
      dmUnregisterStep wDS6 ⟨"u", 5⟩ := by
  have h := unregister_idempotent_closes_once wGS6 ⟨"alice", 1⟩ ⟨[], 2, 0⟩
    (by decide) (by decide) rfl wDS6 ⟨"u", 5⟩ ⟨[], 2, 0⟩ (by decide) (by decide) rfl
  exact ⟨h.1.2.1, h.1.2.2, h.2.2.1, h.2.2.2⟩

/-! ## Stale DM unregister (C1) -/

/-- First connection of user "u" (channel 1). -/
def dmC1 : Client := ⟨"u", 1⟩

/-- Second, later connection of user "u" (channel 2). -/
def dmC2 : Client := ⟨"u", 2⟩

/-- Initial DM state for the C1 scenario: no user registered, both channels
live and never closed. -/
def dmS0 : DMState :=
  { direct := [], chans := [(1, ⟨[], 4, 0⟩), (2, ⟨[], 4, 0⟩)], warnings := [] }

/-- C1 counterexample: after `registerDM` of connection `dmC1` under "u",
then `registerDM` of the later connection `dmC2` under the same "u", a
subsequent `unregisterDM` of the stale `dmC1` does NOT leave the DM table
mapping "u" to `dmC2`: because the `UnregisterDM` case of `OrgHub.Run` checks
only that some entry exists for `client.ID`, it deletes the current entry, so
`GetDirectClient "u"` returns not-found rather than `(dmC2, true)`. -/
theorem staleUnregister_counterexample :
    getDirectClient
        (dmUnregisterStep (dmRegisterStep (dmRegisterStep dmS0 dmC1) dmC2) dmC1)
        "u" = none ∧
    getDirectClient
        (dmUnregisterStep (dmRegisterStep (dmRegisterStep dmS0 dmC1) dmC2) dmC1)
        "u" ≠ some dmC2 := by
  decide

/-- C1 amended: after `registerDM c1`, `registerDM c2` under the same user
and `unregisterDM` of the stale `c1`, the DM table no longer maps the user
at all (`GetDirectClient` returns not-found), the stale connection's own
queue is closed, and the later connection's queue is not closed (indeed its
channel state is untouched). -/
theorem staleUnregister_removes_entry
    (s : DMState) (u : String) (c1 c2 : Client) (cs1 : ChanSt)
    (h1 : c1.id = u) (h2 : c2.id = u) (hch : c1.chan ≠ c2.chan)
    (hnd : (mapKeys s.direct).Nodup)
    (hcs1 : mapLookup s.chans c1.chan = some cs1) :
    getDirectClient
        (dmUnregisterStep (dmRegisterStep (dmRegisterStep s c1) c2) c1) u = none ∧
    mapLookup
        (dmUnregisterStep (dmRegisterStep (dmRegisterStep s c1) c2) c1).chans
        c1.chan = some { cs1 with closeCount := cs1.closeCount + 1 } ∧
    mapLookup
        (dmUnregisterStep (dmRegisterStep (dmRegisterStep s c1) c2) c1).chans
        c2.chan = mapLookup s.chans c2.chan := by
  subst h1
  have hdir2 : (dmRegisterStep (dmRegisterStep s c1) c2).direct =
      mapUpd (mapUpd s.direct c1.id c1) c2.id c2 := rfl
  have hch2 : (dmRegisterStep (dmRegisterStep s c1) c2).chans = s.chans := rfl
  have hlook : mapLookup (mapUpd (mapUpd s.direct c1.id c1) c2.id c2) c1.id =
      some c2 := by
    rw [← h2]
    exact mapLookup_upd_self _ _ _
  have hstep : dmUnregisterStep (dmRegisterStep (dmRegisterStep s c1) c2) c1 =
      { direct := mapErase (mapUpd (mapUpd s.direct c1.id c1) c2.id c2) c1.id,
        chans := closeChan s.chans c1.chan,
        warnings := (dmRegisterStep (dmRegisterStep s c1) c2).warnings } := by
    simp [dmUnregisterStep, hlook, dmRegisterStep]
  have hnd2 : (mapKeys (mapUpd (mapUpd s.direct c1.id c1) c2.id c2)).Nodup :=
    nodup_mapKeys_upd _ _ _ (nodup_mapKeys_upd _ _ _ hnd)
  refine ⟨?_, ?_, ?_⟩
  · show mapLookup _ c1.id = none
    rw [hstep]
    exact mapLookup_erase_self _ _ hnd2
  · rw [hstep]
    show mapLookup (closeChan s.chans c1.chan) c1.chan = _
    simp [closeChan, hcs1]
  · rw [hstep]
    show mapLookup (closeChan s.chans c1.chan) c2.chan = _
    simp only [closeChan, hcs1]
    exact mapLookup_upd_ne _ _ _ _ (fun h => hch h.symm)

/-- Witness for the amended C1 on the concrete scenario: the table entry is
gone, `dmC1`'s queue was closed once, `dmC2`'s channel state is untouched. -/
theorem staleUnregister_removes_entry_witness :
    getDirectClient
        (dmUnregisterStep (dmRegisterStep (dmRegisterStep dmS0 dmC1) dmC2) dmC1)
        "u" = none ∧
    mapLookup
        (dmUnregisterStep (dmRegisterStep (dmRegisterStep dmS0 dmC1) dmC2) dmC1).chans
        1 = some ⟨[], 4, 1⟩ ∧
    mapLookup
        (dmUnregisterStep (dmRegisterStep (dmRegisterStep dmS0 dmC1) dmC2) dmC1).chans
        2 = mapLookup dmS0.chans 2 :=
  staleUnregister_removes_entry dmS0 "u" dmC1 dmC2 ⟨[], 4, 0⟩ rfl rfl
    (by decide) (by decide) rfl

/-! ## Direct send (C7) -/

/-- C7: `SendDirectMessage` returns `true` exactly when the DM table maps
the recipient to a connection and the non-blocking enqueue onto that
connection's `Send` queue succeeds.  When it returns `false` — recipient not
mapped, or mapped but the queue full — it leaves the DM table and the
channel heap unmodified (only the warning log may grow), and when the
recipient is absent the state is completely untouched. -/
theorem sendDirect_true_iff (s : DMState) (r : String) (m : Message) :
    ((sendDirectMessage s r m).1 = true ↔
      ∃ c, mapLookup s.direct r = some c ∧
        (trySendChan s.chans c.chan m).1 = true) ∧
    (∀ c cs, mapLookup s.direct r = some c →
      mapLookup s.chans c.chan = some cs → ¬ cs.buf.length < cs.cap →
      (sendDirectMessage s r m).1 = false) ∧
    ((sendDirectMessage s r m).1 = false →
      (sendDirectMessage s r m).2.direct = s.direct ∧
      (sendDirectMessage s r m).2.chans = s.chans) ∧
    (mapLookup s.direct r = none → sendDirectMessage s r m = (false, s)) := by
  cases hl : mapLookup s.direct r with
  | none =>
      refine ⟨?_, ?_, ?_, ?_⟩
      · constructor
        · intro h
          exact absurd h (by simp [sendDirectMessage, hl])
        · rintro ⟨c, hc, _⟩
          cases hc
      · intro c cs hc
        cases hc
      · intro _
        simp [sendDirectMessage, hl]
      · intro _
        simp [sendDirectMessage, hl]
  | some c =>
      cases htr : trySendChan s.chans c.chan m with
      | mk b h' =>
          cases b
          · -- enqueue failed (queue full or channel missing from the heap)
            have hred : sendDirectMessage s r m =
                (false, { s with warnings := s.warnings ++ [r] }) := by
              simp [sendDirectMessage, hl, htr]
            refine ⟨?_, ?_, ?_, ?_⟩
            · constructor
              · intro h
                rw [hred] at h
                cases h
              · rintro ⟨c', hc', hs'⟩
                cases hc'
                rw [htr] at hs'
                cases hs'
            · intro _ _ _ _ _
              rw [hred]
            · intro _
              rw [hred]
              exact ⟨rfl, rfl⟩
            · intro hnone
              cases hnone
          · -- enqueue succeeded
            have hred : sendDirectMessage s r m = (true, { s with chans := h' }) := by
              simp [sendDirectMessage, hl, htr]
            refine ⟨?_, ?_, ?_, ?_⟩
            · constructor
              · intro _
                exact ⟨c, rfl, by rw [htr]⟩
              · intro _
                rw [hred]
            · intro c' cs hc' hcs hfull
              cases hc'
              simp [trySendChan, hcs, hfull] at htr
            · intro hfalse
              rw [hred] at hfalse
              simp at hfalse
            · intro hnone
              cases hnone

/-- Concrete DM state for the C7 witness: "bob" is mapped with room in his
queue, "dave" is mapped but his queue is full, "carol" is not mapped. -/
def wDS7 : DMState :=
  { direct := [("bob", ⟨"bob", 1⟩), ("dave", ⟨"dave", 2⟩)]
    chans := [(1, ⟨[], 4, 0⟩), (2, ⟨[], 0, 0⟩)]
    warnings := [] }

/-- A concrete direct-message envelope for the C7 witness. -/
def wMsg7 : Message := ⟨"", "", "alice", "bob", "hello", 3⟩

/-- Witness for C7: sending to connected "bob" returns true; sending to full
"dave" returns false; sending to unconnected "carol" returns false with the
state untouched. -/
theorem sendDirect_true_iff_witness :
    (sendDirectMessage wDS7 "bob" wMsg7).1 = true ∧
    (sendDirectMessage wDS7 "dave" wMsg7).1 = false ∧
    sendDirectMessage wDS7 "carol" wMsg7 = (false, wDS7) := by
  refine ⟨?_, ?_, ?_⟩
  · exact (sendDirect_true_iff wDS7 "bob" wMsg7).1.mpr ⟨⟨"bob", 1⟩, rfl, by decide⟩
  · exact (sendDirect_true_iff wDS7 "dave" wMsg7).2.1 ⟨"dave", 2⟩ ⟨[], 0, 0⟩ rfl rfl
      (by decide)
  · exact (sendDirect_true_iff wDS7 "carol" wMsg7).2.2.2 rfl

/-! ## Organization removal (C8) -/

/-- C8: processing `unregisterGroup` for group `g` under an existing
organization removes `g` from the organization's group map; if the group map
thereby becomes empty the organization entry itself is removed, so
`GetOrganization` for that ID returns not-found, and otherwise the
organization is retained with the shrunken group map.  Organizations under
other IDs are untouched. -/
theorem unregisterGroup_removes_empty_org
    (s : OrgHubState) (g : GroupRef) (org : Org)
    (hno : (mapKeys s.orgs).Nodup)
    (hng : (mapKeys org.groups).Nodup)
    (h : mapLookup s.orgs g.orgID = some org) :
    (getOrganization (unregisterGroupStep s g) g.orgID =
      (if (mapErase org.groups g.groupID).isEmpty then none
       else some { org with groups := mapErase org.groups g.groupID })) ∧
    mapLookup (mapErase org.groups g.groupID) g.groupID = none ∧
    (∀ oid, oid ≠ g.orgID →
      getOrganization (unregisterGroupStep s g) oid = getOrganization s oid) := by
  cases hif : (mapErase org.groups g.groupID).isEmpty with
  | true =>
      have hstep : unregisterGroupStep s g = { orgs := mapErase s.orgs g.orgID } := by
        simp [unregisterGroupStep, h, hif]
      refine ⟨?_, mapLookup_erase_self _ _ hng, ?_⟩
      · rw [hstep]
        show mapLookup (mapErase s.orgs g.orgID) g.orgID = none
        exact mapLookup_erase_self _ _ hno
      · intro oid hne
        rw [hstep]
        exact mapLookup_erase_ne _ _ _ hne
  | false =>
      have hstep : unregisterGroupStep s g =
          { orgs := mapUpd s.orgs g.orgID
              { org with groups := mapErase org.groups g.groupID } } := by
        simp [unregisterGroupStep, h, hif]
      refine ⟨?_, mapLookup_erase_self _ _ hng, ?_⟩
      · rw [hstep]
        show mapLookup
            (mapUpd s.orgs g.orgID { org with groups := mapErase org.groups g.groupID })
            g.orgID = some { org with groups := mapErase org.groups g.groupID }
        exact mapLookup_upd_self _ _ _
      · intro oid hne
        rw [hstep]
        exact mapLookup_upd_ne _ _ _ _ hne

/-- Concrete registry for the C8 witness: "acme" holds only group "eng",
"beta" holds group "x". -/
def wOHS : OrgHubState :=
  { orgs := [("acme", { id := "acme", name := "Acme",
                        groups := [("eng", ⟨"acme", "eng"⟩)] }),
             ("beta", { id := "beta", name := "Beta",
                        groups := [("x", ⟨"beta", "x"⟩)] })] }

/-- Witness for C8: removing "eng" — the last group of "acme" — removes the
organization ("acme" lookup returns not-found) while "beta" is retained. -/
theorem unregisterGroup_removes_empty_org_witness :
    getOrganization (unregisterGroupStep wOHS ⟨"acme", "eng"⟩) "acme" = none ∧
    getOrganization (unregisterGroupStep wOHS ⟨"acme", "eng"⟩) "beta" =
      getOrganization wOHS "beta" := by
  have h := unregisterGroup_removes_empty_org wOHS ⟨"acme", "eng"⟩
    { id := "acme", name := "Acme", groups := [("eng", ⟨"acme", "eng"⟩)] }
    (by decide) (by decide) rfl
  refine ⟨?_, h.2.2 "beta" (by decide)⟩
  have h1 := h.1
  rw [if_pos (by decide)] at h1
  exact h1

/-! ## Organization creation (C9) -/

/-- C9: `CreateOrganization` is idempotent.  If an organization with the
given ID already exists it returns the existing organization object with the
registry unmodified; otherwise it inserts a fresh organization with the
given ID and name and returns it.  Calling it a second time returns the same
organization and the same state. -/
theorem createOrganization_idempotent (s : OrgHubState) (oid nm : String) :
    (∀ org, mapLookup s.orgs oid = some org →
      createOrganization s oid nm = (org, s)) ∧
    (mapLookup s.orgs oid = none →
      (createOrganization s oid nm).1 = { id := oid, name := nm, groups := [] } ∧
      (createOrganization s oid nm).2.orgs =
        mapUpd s.orgs oid { id := oid, name := nm, groups := [] }) ∧
    createOrganization (createOrganization s oid nm).2 oid nm =
      ((createOrganization s oid nm).1, (createOrganization s oid nm).2) := by
  cases hl : mapLookup s.orgs oid with
  | some org =>
      have hred : createOrganization s oid nm = (org, s) := by
        simp [createOrganization, hl]
      refine ⟨?_, ?_, ?_⟩
      · intro org' horg'
        cases horg'
        exact hred
      · intro hnone
        cases hnone
      · rw [hred]
        simp [createOrganization, hl]
  | none =>
      have hred : createOrganization s oid nm =
          ({ id := oid, name := nm, groups := [] },
           { orgs := mapUpd s.orgs oid { id := oid, name := nm, groups := [] } }) := by
        simp [createOrganization, hl]
      refine ⟨?_, ?_, ?_⟩
      · intro org' horg'
        cases horg'
      · intro _
        rw [hred]
        exact ⟨rfl, rfl⟩
      · rw [hred]
        simp [createOrganization, mapLookup_upd_self]

/-- Witness for C9: creating "acme" when it already exists returns the
stored organization and leaves the registry unchanged; creating "beta" in an
empty registry returns a fresh organization with the given ID and name. -/
theorem createOrganization_idempotent_witness :
    createOrganization wOHS "acme" "Other"
      = ({ id := "acme", name := "Acme", groups := [("eng", ⟨"acme", "eng"⟩)] }, wOHS) ∧
    (createOrganization { orgs := [] } "beta" "Beta").1
      = { id := "beta", name := "Beta", groups := [] } :=
  ⟨(createOrganization_idempotent wOHS "acme" "Other").1
      { id := "acme", name := "Acme", groups := [("eng", ⟨"acme", "eng"⟩)] } rfl,
   ((createOrganization_idempotent { orgs := [] } "beta" "Beta").2.1 rfl).1⟩

/-! ## Ingress timestamp (C4) and identity stamping (C5) -/

/-- Connection and join context used by the C4 and C5 theorems. -/
def cxClient : Client := ⟨"alice", 1⟩

/-- Join context of `cxClient`'s group. -/
def cxCtx : GroupCtx := ⟨"acme", "eng"⟩

/-- An inbound frame whose timestamp field is unset (the Go zero value). -/
def cxFrameUnset : Message := ⟨"", "", "", "", "hi", 0⟩

/-- An inbound frame carrying a client-supplied timestamp 42. -/
def cxFrame42 : Message := ⟨"", "", "", "", "hi", 42⟩

/-- C4 counterexample: the group connection's read loop (`Client.readPump`
in `src/unnamed/part_002`) does not assign a timestamp at its point of
ingress: the envelope it hands to the group's dispatch queue carries
whatever timestamp the inbound frame held — left at the zero value when the
client sent none, and the client-supplied value otherwise.  This refutes the
claim that every ingress point assigns the timestamp. -/
theorem groupIngress_timestamp_counterexample :
    (stampGroupFrame cxClient cxCtx cxFrameUnset).timestamp = 0 ∧
    (stampGroupFrame cxClient cxCtx cxFrame42).timestamp = 42 := by
  decide

/-- C4 amended: the DM ingress points assign the ingress time to the
envelope — `readPumpDM` and `SendDM` both set the timestamp to `time.Now()`
at the point of ingress — but the group connection's read loop passes the
client-supplied timestamp through unchanged (it does not assign one). -/
theorem ingress_timestamp_amended :
    (∀ (c : Client) (now : Nat) (m : Message),
      (stampDMFrame c now m).timestamp = now) ∧
    (∀ (senderID recipientID : String) (now : Nat) (m : Message),
      (stampSendDM senderID recipientID now m).timestamp = now) ∧
    (∀ (c : Client) (g : GroupCtx) (m : Message),
      (stampGroupFrame c g m).timestamp = m.timestamp) :=
  ⟨fun _ _ _ => rfl, fun _ _ _ _ => rfl, fun _ _ _ => rfl⟩

/-- C5: for every inbound frame decoded by a group connection's read loop,
the envelope handed to the group's dispatch queue takes its org ID, group ID
and sender client ID from the connection's join context; two frames that
differ only in the client-supplied `org_id`, `group_id` or `client_id`
fields are stamped with identical org/group/sender identity, so the sender
cannot spoof these. -/
theorem groupIngress_identity_unspoofable
    (c : Client) (g : GroupCtx) (m1 m2 : Message)
    (_hc : m1.content = m2.content) (_hr : m1.recipientID = m2.recipientID)
    (_ht : m1.timestamp = m2.timestamp) :
    (stampGroupFrame c g m1).orgID = (stampGroupFrame c g m2).orgID ∧
    (stampGroupFrame c g m1).groupID = (stampGroupFrame c g m2).groupID ∧
    (stampGroupFrame c g m1).clientID = (stampGroupFrame c g m2).clientID ∧
    (stampGroupFrame c g m1).orgID = g.orgID ∧
    (stampGroupFrame c g m1).groupID = g.groupID ∧
    (stampGroupFrame c g m1).clientID = c.id :=
  ⟨rfl, rfl, rfl, rfl, rfl, rfl⟩

/-- A frame attempting to spoof identity fields. -/
def spoofA : Message := ⟨"evil", "other", "mallory", "", "hi", 3⟩

/-- A second frame with different spoofed identity fields but the same
content, recipient and timestamp. -/
def spoofB : Message := ⟨"acme2", "g2", "x", "", "hi", 3⟩

/-- Witness for C5 on two concrete frames differing only in their identity
fields. -/
theorem groupIngress_identity_unspoofable_witness :
    (stampGroupFrame cxClient cxCtx spoofA).orgID =
      (stampGroupFrame cxClient cxCtx spoofB).orgID ∧
    (stampGroupFrame cxClient cxCtx spoofA).groupID =
      (stampGroupFrame cxClient cxCtx spoofB).groupID ∧
    (stampGroupFrame cxClient cxCtx spoofA).clientID =
      (stampGroupFrame cxClient cxCtx spoofB).clientID ∧
    (stampGroupFrame cxClient cxCtx spoofA).orgID = cxCtx.orgID ∧
    (stampGroupFrame cxClient cxCtx spoofA).groupID = cxCtx.groupID ∧
    (stampGroupFrame cxClient cxCtx spoofA).clientID = cxClient.id :=
  groupIngress_identity_unspoofable cxClient cxCtx spoofA spoofB rfl rfl rfl

/-! ## DM room identity (C10) -/

/-- C10: `getDMRoomID` is symmetric in its two arguments, and the shared
identifier is the lexicographically ordered pair of IDs joined by an
underscore. -/
theorem getDMRoomID_symm (a b : String) :
    getDMRoomID a b = getDMRoomID b a ∧
    getDMRoomID a b = min a b ++ "_" ++ max a b := by
  rcases lt_trichotomy a b with h | h | h
  · rw [getDMRoomID, getDMRoomID, if_pos h, if_neg (not_lt.mpr h.le),
      min_eq_left h.le, max_eq_right h.le]
    exact ⟨rfl, rfl⟩
  · subst h
    rw [getDMRoomID, if_neg (lt_irrefl a), min_self, max_self]
    exact ⟨rfl, rfl⟩
  · rw [getDMRoomID, getDMRoomID, if_neg (not_lt.mpr h.le), if_pos h,
      min_eq_right h.le, max_eq_left h.le]
    exact ⟨rfl, rfl⟩

end GoRealtime
